import Mathlib

/-!
Verification of the `claude-pager` transcript pager (`src/bin/pager.c`)
against its natural-language specification.

The C source is shallowly embedded: C strings become `List Char` (one
`Char` per byte; multi-byte UTF-8 glyphs are sequences of byte-valued
chars), pointer walks become recursion over list suffixes, and every
loop whose cursor can stall on malformed input carries an explicit fuel
argument set to an amount that the loop can never exhaust on the inputs
the C code actually advances through.
-/

set_option maxHeartbeats 1000000
set_option maxRecDepth 100000

/-- ESC byte (0x1b). -/
def escC : Char := Char.ofNat 27

/-- BEL byte (0x07), the OSC terminator. -/
def belC : Char := Char.ofNat 7

/-- Backtick byte (0x60), the fenced-code delimiter in markdown. -/
def btkC : Char := Char.ofNat 96

/-- C `isspace` in the C locale (space, \t, \n, \v, \f, \r). -/
def isspaceC (c : Char) : Bool :=
  c == ' ' || c == '\t' || c == '\n' || c == '\r' ||
  c == Char.ofNat 11 || c == Char.ofNat 12

/-- C `isalpha` in the C locale (ASCII letters only). -/
def isalphaC (c : Char) : Bool :=
  ('a' ≤ c && c ≤ 'z') || ('A' ≤ c && c ≤ 'Z')

/-- C `isdigit`. -/
def isdigitC (c : Char) : Bool :=
  '0' ≤ c && c ≤ '9'

/-- Value of one hex digit as read by the `\uXXXX` decoder in `jstr`
(non-hex digits contribute 0, exactly as the C code ORs in nothing). -/
def hexv (c : Char) : Nat :=
  if '0' ≤ c && c ≤ '9' then c.toNat - 48
  else if 'a' ≤ c && c ≤ 'f' then 10 + (c.toNat - 97)
  else if 'A' ≤ c && c ≤ 'F' then 10 + (c.toNat - 65)
  else 0

/-- `jws`: skip JSON whitespace (space, \t, \n, \r — the four the C code
tests explicitly). -/
def jws (l : List Char) : List Char :=
  l.dropWhile (fun c => c == ' ' || c == '\t' || c == '\n' || c == '\r')

/-- Body of `jskip_s`: cursor already past the opening quote; skip until
just past the closing quote, honouring backslash escapes.  A trailing
backslash at the very end of the buffer is modelled as end of input. -/
def jssGo : List Char → List Char
  | [] => []
  | '"' :: r => r
  | '\\' :: [] => []
  | '\\' :: _ :: r => jssGo r
  | _ :: r => jssGo r

/-- `jskip_s`: called with the cursor on the opening quote. -/
def jskip_s : List Char → List Char
  | [] => []
  | _ :: r => jssGo r

/-- Bracket-balancing loop of `jskip` (the `{`/`[` case).  `d` is the
current depth; the C loop runs while `*p && d > 0`. -/
def jbrGo : Nat → Char → Char → Nat → List Char → List Char
  | 0, _, _, _, l => l
  | _ + 1, _, _, _, [] => []
  | fuel + 1, o, c, d, x :: r =>
    if d = 0 then x :: r
    else if x = '"' then jbrGo fuel o c d (jssGo r)
    else if x = o then jbrGo fuel o c (d + 1) r
    else if x = c then jbrGo fuel o c (d - 1) r
    else jbrGo fuel o c d r

/-- `jskip`: skip one JSON value (string, balanced object/array, or bare
token). -/
def jskip (l : List Char) : List Char :=
  let p := jws l
  match p with
  | '"' :: r => jssGo r
  | '{' :: r => jbrGo (r.length + 1) '{' '}' 1 r
  | '[' :: r => jbrGo (r.length + 1) '[' ']' 1 r
  | _ => p.dropWhile (fun c => !(c == ',' || c == '}' || c == ']' || isspaceC c))

/-- Key-scanning loop of `jfind`.  Each iteration consumes at least the
opening quote of a key, so fuel `length + 1` is never exhausted. -/
def jfindGo : Nat → List Char → List Char → Option (List Char)
  | 0, _, _ => none
  | fuel + 1, p, key =>
    match p with
    | [] => none
    | c :: _ =>
      if c = '}' then none
      else
        match jws p with
        | '"' :: r =>
          let rest := jssGo r
          let kn := r.length - rest.length - 1
          let v0 := jws rest
          let v := if v0.head? = some ':' then jws (v0.drop 1) else v0
          if kn = key.length ∧ r.take kn = key then some v
          else
            let nxt0 := jws (jskip v)
            let nxt := if nxt0.head? = some ',' then nxt0.drop 1 else nxt0
            jfindGo fuel nxt key
        | _ => none

/-- `jfind`: locate the value of `key` at the top level of the object at
`l`; `none` is the C `NULL` ("not found, never fatal"). -/
def jfind (l : List Char) (key : List Char) : Option (List Char) :=
  let p := jws l
  let p1 := if p.head? = some '{' then p.drop 1 else p
  jfindGo (p1.length + 1) p1 key

/-- Decoding loop of `jstr`: cursor past the opening quote, `i` is the
number of bytes already emitted, `mx` the destination capacity. -/
def jstrGoF : Nat → Nat → List Char → Nat → List Char
  | 0, _, _, _ => []
  | _ + 1, _, [], _ => []
  | fuel + 1, mx, c :: r, i =>
    if ¬ i < mx - 1 then []
    else if c = '"' then []
    else if c = '\\' then
      match r with
      | [] => []
      | e :: r2 =>
        if e = 'n' then '\n' :: jstrGoF fuel mx r2 (i + 1)
        else if e = 't' then '\t' :: jstrGoF fuel mx r2 (i + 1)
        else if e = 'r' then jstrGoF fuel mx r2 i
        else if e = 'u' then
          let cp := (r2.take 4).foldl (fun a ch => a * 16 + hexv ch) 0
          let r3 := r2.drop 4
          if cp < 128 then Char.ofNat cp :: jstrGoF fuel mx r3 (i + 1)
          else if cp < 2048 ∧ i + 1 < mx then
            Char.ofNat (192 + cp / 64) :: Char.ofNat (128 + cp % 64) ::
              jstrGoF fuel mx r3 (i + 2)
          else if i + 2 < mx then
            Char.ofNat (224 + cp / 4096) :: Char.ofNat (128 + cp / 64 % 64) ::
              Char.ofNat (128 + cp % 64) :: jstrGoF fuel mx r3 (i + 3)
          else jstrGoF fuel mx r3 i
        else e :: jstrGoF fuel mx r2 (i + 1)
    else c :: jstrGoF fuel mx r (i + 1)

/-- `jstr`: decode the JSON string at `v` into at most `mx - 1` bytes.
`none` models the C "not a string: return 0 and leave the buffer
untouched" path; `some []` models a decoded empty string. -/
def jstr (v : List Char) (mx : Nat) : Option (List Char) :=
  match v with
  | '"' :: r => some (jstrGoF (r.length + 1) mx r 0)
  | _ => none

/-- `jstreq`: raw (escape-blind) comparison of the string at `p` with
literal `s`. -/
def jstreq (p : Option (List Char)) (s : List Char) : Bool :=
  match p with
  | some ('"' :: r) => r.take s.length == s && (r.drop s.length).head? == some '"'
  | _ => false

/-- Digit run consumed by C `atoi` after sign handling. -/
def digitsValC (l : List Char) : Nat :=
  (l.takeWhile (fun c => '0' ≤ c && c ≤ '9')).foldl
    (fun a c => a * 10 + (c.toNat - 48)) 0

/-- C `atoi` (whitespace, optional sign, digit run; overflow ignored). -/
def atoiC (l : List Char) : Int :=
  let t := l.dropWhile isspaceC
  match t with
  | '-' :: r => -(digitsValC r : Int)
  | '+' :: r => (digitsValC r : Int)
  | _ => (digitsValC t : Int)

/-- `jint`: `p ? atoi(jws(p)) : 0`. -/
def jint (p : Option (List Char)) : Int :=
  match p with
  | some v => atoiC (jws v)
  | none => 0

/-- Keys and literals the parser looks up (each a C string literal). -/
def keyType : List Char := "type".toList

def keyMessage : List Char := "message".toList

def keyContent : List Char := "content".toList

def keyUsage : List Char := "usage".toList

def keyInputTokens : List Char := "input_tokens".toList

def keyCacheCreation : List Char := "cache_creation_input_tokens".toList

def keyCacheRead : List Char := "cache_read_input_tokens".toList

def keyText : List Char := "text".toList

def keyName : List Char := "name".toList

def keyInput : List Char := "input".toList

def keyIsError : List Char := "is_error".toList

def litAssistant : List Char := "assistant".toList

def litUser : List Char := "user".toList

def litText : List Char := "text".toList

def litToolUse : List Char := "tool_use".toList

def litToolResult : List Char := "tool_result".toList

/-- CSI-skipping step of `sanitize` (note: unlike `vlen`, no `~` test). -/
def sanCsiSkip : List Char → List Char
  | [] => []
  | c :: r => if isalphaC c then r else sanCsiSkip r

/-- OSC-skipping loop shared by `sanitize` and `vlen`: consume until a
BEL or an `ESC \` terminator (inclusive), or end of input. -/
def oscSkip : List Char → List Char
  | [] => []
  | c :: r =>
    if c = belC then r
    else if c = escC ∧ r.head? = some '\\' then r.drop 1
    else oscSkip r

/-- Copying loop for OSC-8 hyperlink sequences inside `sanitize`:
returns the copied run (terminator included) and the remainder. -/
def sanCopyOsc : List Char → List Char × List Char
  | [] => ([], [])
  | c :: r =>
    if c = belC then ([c], r)
    else if c = escC ∧ r.head? = some '\\' then ([escC, '\\'], r.drop 1)
    else
      let p := sanCopyOsc r
      (c :: p.1, p.2)

/-- `sanitize`: strip ANSI escapes from decoded text, preserving OSC-8
hyperlinks.  Every step consumes at least one input byte, so fuel
`length + 1` is never exhausted. -/
def sanitizeF : Nat → List Char → List Char
  | 0, _ => []
  | _ + 1, [] => []
  | fuel + 1, c :: r =>
    if c = escC then
      match r with
      | '[' :: r2 => sanitizeF fuel (sanCsiSkip r2)
      | ']' :: '8' :: ';' :: r2 =>
        let p := sanCopyOsc (']' :: '8' :: ';' :: r2)
        escC :: p.1 ++ sanitizeF fuel p.2
      | ']' :: r2 => sanitizeF fuel (oscSkip r2)
      | _ :: r2 => sanitizeF fuel r2
      | [] => []
    else c :: sanitizeF fuel r

def sanitize (l : List Char) : List Char := sanitizeF (l.length + 1) l

/-- The four bracketed internal markers `is_systag` greps for. -/
def sysTag1 : List Char := "<local-command-caveat".toList

def sysTag2 : List Char := "<command-name".toList

def sysTag3 : List Char := "<system-reminder".toList

def sysTag4 : List Char := "<user-prompt-submit-hook".toList

/-- C `strstr` as a Bool: does `pat` occur anywhere in the text. -/
def strstrB (pat : List Char) : List Char → Bool
  | [] => pat.isPrefixOf []
  | c :: r => pat.isPrefixOf (c :: r) || strstrB pat r

def is_systag (s : List Char) : Bool :=
  strstrB sysTag1 s || strstrB sysTag2 s ||
  strstrB sysTag3 s || strstrB sysTag4 s

/-- The trim in `extract_text` and the tool_result path: strip spaces
and newlines (only those two) from both ends. -/
def trimSpNl (l : List Char) : List Char :=
  ((l.dropWhile (fun c => c == ' ' || c == '\n')).reverse.dropWhile
    (fun c => c == ' ' || c == '\n')).reverse

/-- `extract_text`: decode the JSON string at `p` (capacity `mx`), trim,
drop if empty, sanitize. -/
def extract_text (p : Option (List Char)) (mx : Nat) : Option (List Char) :=
  match p with
  | some ('"' :: r) =>
    let buf := jstrGoF (r.length + 1) mx r 0
    if buf = [] then none
    else
      let s := trimSpNl buf
      if s = [] then none else some (sanitize s)
  | _ => none

/-- Display items (`IT_HUM`/`IT_AST`/`IT_TU`/`IT_TR`).  A `tu` label is
always a (possibly empty) string in the C code. -/
inductive Item where
  | hum (text : List Char)
  | ast (text : List Char)
  | tu (name : List Char) (label : List Char)
  | tr (text : List Char) (isErr : Bool)
  deriving DecidableEq

/-- The fixed priority list of label keys for tool invocations. -/
def lblKeys : List (List Char) :=
  ["command".toList, "file_path".toList, "path".toList, "pattern".toList,
   "query".toList, "url".toList, "content".toList, "description".toList]

/-- Priority-key loop of the tool_use label extraction: the first key
present in `inp` whose value is a string wins (its decoded value, which
may be empty, is returned); keys with non-string values do not break
the loop. -/
def prioPick : List (List Char) → List Char → Option (List Char)
  | [], _ => none
  | k :: ks, inp =>
    match jfind inp k with
    | some v =>
      if v.head? = some '"' then some ((jstr v 256).getD [])
      else prioPick ks inp
    | none => prioPick ks inp

/-- Fallback label: the value of the *first* field of `inp`, used only
when that value is itself a string (the C code inspects only the first
field, it does not scan further). -/
def firstFieldLbl (inp : List Char) : List Char :=
  let p := jws inp
  let p1 := if p.head? = some '{' then p.drop 1 else p
  let p2 := jws p1
  match p2 with
  | '"' :: _ =>
    let q := jws (jskip_s p2)
    let q1 := if q.head? = some ':' then jws (q.drop 1) else q
    (jstr q1 256).getD []
  | _ => []

/-- Label chosen for a tool_use block, before truncation. -/
def tuLabel (inpv : Option (List Char)) : List Char :=
  match inpv with
  | none => []
  | some inp =>
    let lbl := (prioPick lblKeys inp).getD []
    if lbl = [] then firstFieldLbl inp else lbl

/-- Truncation of over-long labels: 69 bytes plus three ASCII dots. -/
def truncLbl (l : List Char) : List Char :=
  if l.length > 72 then l.take 69 ++ ['.', '.', '.'] else l

/-- Tool name: decoded `name` value, `?` when the key is absent or its
value is not a string. -/
def tuName (el : List Char) : List Char :=
  match jfind el keyName with
  | some v => (jstr v 128).getD ['?']
  | none => ['?']

/-- Element walk over an assistant `message.content` array.  The C loop
does not advance past a stray `}` (it would spin); fuel makes the walk
total, returning the items emitted so far. -/
def awGo : Nat → List Char → Nat → List Item → List Item
  | 0, _, _, acc => acc
  | fuel + 1, el, len, acc =>
    match el with
    | [] => acc
    | c :: _ =>
      if c = ']' then acc
      else
        let acc1 :=
          if c = '{' then
            let bt := jfind el keyType
            if jstreq bt litText then
              match extract_text (jfind el keyText) (len + 1) with
              | some t => acc ++ [Item.ast t]
              | none => acc
            else if jstreq bt litToolUse then
              let nm := tuName el
              let lbl := truncLbl (tuLabel (jfind el keyInput))
              acc ++ [Item.tu (sanitize nm) (sanitize lbl)]
            else acc
          else acc
        let el2 := jws (jskip el)
        let el3 := if el2.head? = some ',' then jws (el2.drop 1) else el2
        awGo fuel el3 len acc1

/-- Concatenation loop over the blocks of an array-valued tool_result
`content`: text-block values joined by newlines, capacity `bmax`. -/
def trBufGo : Nat → List Char → Nat → List Char → List Char
  | 0, _, _, buf => buf
  | fuel + 1, sub, bmax, buf =>
    match sub with
    | [] => buf
    | c :: _ =>
      if c = ']' then buf
      else
        let buf1 :=
          if c = '{' && jstreq (jfind sub keyType) litText then
            match jfind sub keyText with
            | some sv =>
              if sv.head? = some '"' then
                let b2 :=
                  if buf.length > 0 ∧ buf.length < bmax - 1 then buf ++ ['\n']
                  else buf
                b2 ++ ((jstr sv (bmax - b2.length)).getD [])
              else buf
            | none => buf
          else buf
        let s2 := jws (jskip sub)
        let s3 := if s2.head? = some ',' then jws (s2.drop 1) else s2
        trBufGo fuel s3 bmax buf1

/-- Text of a tool_result block (`content` string, or concatenated text
blocks of a `content` array), trimmed and sanitized. -/
def trText (el : List Char) (len : Nat) : Option (List Char) :=
  match jfind el keyContent with
  | none => none
  | some rc =>
    match (jws rc).head? with
    | some '"' => extract_text (some rc) (len + 1)
    | some '[' =>
      let sub := jws ((jws rc).drop 1)
      let buf := trBufGo (rc.length + 1) sub (len + 1) []
      let s := trimSpNl buf
      if s = [] then none else some (sanitize s)
    | _ => none

/-- `is_error` flag: present and starting with `t` or `T`. -/
def trIsErr (el : List Char) : Bool :=
  match jfind el keyIsError with
  | some v => v.head? == some 't' || v.head? == some 'T'
  | none => false

/-- Element walk over a user `message.content` array (tool_result
blocks). -/
def uwGo : Nat → List Char → Nat → List Item → List Item
  | 0, _, _, acc => acc
  | fuel + 1, el, len, acc =>
    match el with
    | [] => acc
    | c :: _ =>
      if c = ']' then acc
      else
        let acc1 :=
          if c = '{' && jstreq (jfind el keyType) litToolResult then
            match trText el len with
            | some t => acc ++ [Item.tr t (trIsErr el)]
            | none => acc
          else acc
        let el2 := jws (jskip el)
        let el3 := if el2.head? = some ',' then jws (el2.drop 1) else el2
        uwGo fuel el3 len acc1

/-- Parser state: emitted items plus the running usage fields
`li`/`lcc`/`lcr` of `parse_transcript`. -/
structure PState where
  items : List Item
  li : Int
  lcc : Int
  lcr : Int
  deriving DecidableEq

def initPState : PState := ⟨[], 0, 0, 0⟩

/-- Strip trailing `\n`/`\r` exactly as the getline loop does. -/
def stripCRLF (l : List Char) : List Char :=
  (l.reverse.dropWhile (fun c => c == '\n' || c == '\r')).reverse

/-- One iteration of the `parse_transcript` line loop. -/
def lineStep (st : PState) (raw : List Char) : PState :=
  let line := stripCRLF raw
  if line.length = 0 then st
  else
    match jfind line keyType, jfind line keyMessage with
    | some tv, some msg =>
      let ct := jfind msg keyContent
      if jstreq (some tv) litAssistant then
        let u :=
          match jfind msg keyUsage with
          | some usg =>
            let a := match jfind usg keyInputTokens with
              | some v => jint (some v)
              | none => st.li
            let b := match jfind usg keyCacheCreation with
              | some v => jint (some v)
              | none => st.lcc
            let c := match jfind usg keyCacheRead with
              | some v => jint (some v)
              | none => st.lcr
            (a, b, c)
          | none => (st.li, st.lcc, st.lcr)
        let items :=
          match ct with
          | some c =>
            if (jws c).head? = some '[' then
              awGo (line.length + 1) (jws ((jws c).drop 1)) line.length st.items
            else st.items
          | none => st.items
        ⟨items, u.1, u.2.1, u.2.2⟩
      else if jstreq (some tv) litUser then
        let items :=
          match ct with
          | some c =>
            if (jws c).head? = some '"' then
              match extract_text (some c) (line.length + 1) with
              | some t => if is_systag t then st.items else st.items ++ [Item.hum t]
              | none => st.items
            else if (jws c).head? = some '[' then
              uwGo (line.length + 1) (jws ((jws c).drop 1)) line.length st.items
            else st.items
          | none => st.items
        { st with items := items }
      else st
    | _, _ => st

/-- `parse_transcript` over the lines of an already-read file. -/
def parse_transcript (lines : List (List Char)) : PState :=
  lines.foldl lineStep initPState

/-- File-level behaviour: `fopen` failure (absent/unreadable transcript)
returns immediately, leaving the caller-zeroed state untouched. -/
def parseFileT (file : Option (List (List Char))) : PState :=
  match file with
  | none => initPState
  | some lines => parse_transcript lines

/-- The token total written back by `parse_transcript`: the caller's
zeroed `tok` is overwritten only when `li + lcc + lcr > 0`. -/
def outTok (st : PState) : Int :=
  if st.li + st.lcc + st.lcr > 0 then st.li + st.lcc + st.lcr else 0

/-- ANSI macro strings from the top of `pager.c`, as byte lists. -/
def RS : List Char := "\x1b[0m".toList

def BO : List Char := "\x1b[1m".toList

def DI : List Char := "\x1b[2m".toList

def C_HUM : List Char := "\x1b[38;2;255;165;0m".toList

def C_AST : List Char := "\x1b[38;2;204;204;204m".toList

def C_TOL : List Char := "\x1b[38;2;160;100;255m".toList

def C_RES : List Char := "\x1b[38;2;110;110;110m".toList

def C_ERR : List Char := "\x1b[38;2;220;80;80m".toList

def C_CBG : List Char := "\x1b[48;2;35;35;35m".toList

def C_CFG : List Char := "\x1b[38;2;200;230;200m".toList

def C_CIN : List Char := "\x1b[38;2;97;175;239m".toList

def C_SEP : List Char := "\x1b[38;2;80;80;80m".toList

def C_HDM : List Char := "\x1b[38;2;100;100;100m".toList

def C_BAN : List Char := "\x1b[1;33m".toList

def C_DFG : List Char := "\x1b[38;2;100;220;100m".toList

def C_DFR : List Char := "\x1b[38;2;220;80;80m".toList

def C_DFC : List Char := "\x1b[38;2;100;150;255m".toList

def C_CONN : List Char := "\x1b[38;2;60;60;80m".toList

def C_URL : List Char := "\x1b[38;2;255;165;0m".toList

def UL_ON : List Char := "\x1b[4m".toList

def UL_OFF : List Char := "\x1b[24m".toList

/-- UTF-8 glyph macros, as byte sequences. -/
def gHL : List Char := [Char.ofNat 0xE2, Char.ofNat 0x94, Char.ofNat 0x80]

def gVL : List Char := [Char.ofNat 0xE2, Char.ofNat 0x94, Char.ofNat 0x82]

def gBUL : List Char := [Char.ofNat 0xE2, Char.ofNat 0x80, Char.ofNat 0xA2]

def gCHV : List Char := [Char.ofNat 0xE2, Char.ofNat 0x9D, Char.ofNat 0xAF]

def gREC : List Char := [Char.ofNat 0xE2, Char.ofNat 0x8F, Char.ofNat 0xBA]

def gELL : List Char := [Char.ofNat 0xE2, Char.ofNat 0x80, Char.ofNat 0xA6]

def gEMD : List Char := [Char.ofNat 0xE2, Char.ofNat 0x80, Char.ofNat 0x94]

def gUAR : List Char := [Char.ofNat 0xE2, Char.ofNat 0x86, Char.ofNat 0x91]

/-- CSI-skipping step of `vlen` (stops at a letter or `~`, consuming
it). -/
def csiSkip : List Char → List Char
  | [] => []
  | c :: r => if isalphaC c || c == '~' then r else csiSkip r

/-- Loop body of the escape-aware visible length `vlen`.  Every step
consumes at least one byte, so fuel `length + 1` is never exhausted. -/
def vlenF : Nat → List Char → Nat
  | 0, _ => 0
  | _ + 1, [] => 0
  | fuel + 1, c :: r =>
    if c = escC then
      match r with
      | [] => 0
      | d :: r2 =>
        if d = '[' then vlenF fuel (csiSkip r2)
        else if d = ']' then vlenF fuel (oscSkip r2)
        else vlenF fuel r2
    else 1 + vlenF fuel r

/-- `vlen`: visible (non-escape) byte count of a display line. -/
def vlen (l : List Char) : Nat := vlenF (l.length + 1) l

/-- `L_pushw`: push a line, then append empty continuation lines when
its visible length exceeds the column count. -/
def L_pushw (cols : Nat) (l : List (List Char)) (s : List Char) : List (List Char) :=
  let v := vlen s
  if v > cols then l ++ [s] ++ List.replicate ((v + cols - 1) / cols - 1) []
  else l ++ [s]

/-- Bounded append: the `LF_CH`/`LF_S`/`A` macros copy bytes only while
the output cursor is below `mx - 1`. -/
def abnd (mx : Nat) (acc : List Char) (s : List Char) : List Char :=
  acc ++ s.take (mx - 1 - acc.length)

/-- Copy loop of a `**bold**` span in `fmt_inline`: returns the new
output and the remaining source. -/
def fiBold : List Char → Nat → List Char → List Char × List Char
  | [], _, acc => (acc, [])
  | c :: r, mx, acc =>
    if ¬ acc.length < mx - 20 then (acc, c :: r)
    else if c = '*' ∧ r.head? = some '*' then (acc, c :: r)
    else fiBold r mx (acc ++ [c])

/-- Copy loop of an inline-code span in `fmt_inline`. -/
def fiCode : List Char → Nat → List Char → List Char × List Char
  | [], _, acc => (acc, [])
  | c :: r, mx, acc =>
    if c = btkC then (acc, c :: r)
    else if ¬ acc.length < mx - 20 then (acc, c :: r)
    else fiCode r mx (acc ++ [c])

/-- Main loop of `fmt_inline`. -/
def fiGo : Nat → List Char → Nat → List Char → List Char
  | 0, _, _, acc => acc
  | fuel + 1, src, mx, acc =>
    match src with
    | [] => acc
    | c :: r =>
      if ¬ acc.length < mx - 40 then acc
      else if c = '*' ∧ r.head? = some '*' then
        let p := fiBold (r.drop 1) mx (abnd mx acc BO)
        let acc2 := abnd mx (abnd mx p.1 RS) C_AST
        let src2 :=
          if p.2.head? = some '*' ∧ (p.2.drop 1).head? = some '*' then p.2.drop 2
          else p.2
        fiGo fuel src2 mx acc2
      else if c = btkC ∧ r.head? ≠ some btkC then
        let p := fiCode r mx (abnd mx acc C_CIN)
        let acc2 := abnd mx (abnd mx p.1 RS) C_AST
        let src2 := if p.2.head? = some btkC then p.2.drop 1 else p.2
        fiGo fuel src2 mx acc2
      else fiGo fuel r mx (acc ++ [c])

/-- `fmt_inline`: render `**bold**` and inline-code spans. -/
def fmt_inline (mx : Nat) (src : List Char) : List Char :=
  abnd mx (fiGo (src.length + 1) src mx (abnd mx [] C_AST)) RS

/-- `is_urlch`.  `char` is signed on the source's platforms, so bytes
at or above 0x80 compare `<= ' '` and stop a URL run. -/
def is_urlch (c : Char) : Bool :=
  if 128 ≤ c.toNat || c ≤ ' ' then false
  else !(c == '<' || c == '>' || c == '"' || c == '\'' || c == '\\' ||
         c == ')' || c == '}' || c == ']')

def is_pathch (c : Char) : Bool :=
  ('a' ≤ c && c ≤ 'z') || ('A' ≤ c && c ≤ 'Z') || ('0' ≤ c && c ≤ '9') ||
  c == '_' || c == '.' || c == '-' || c == '/'

/-- Drop bytes from the end while `pred` holds, never shrinking below
`minLen` (the backward punctuation trim loops of `linkify`). -/
def dtGo (pred : Char → Bool) (minLen : Nat) : List Char → List Char
  | [] => []
  | c :: r => if pred c ∧ r.length + 1 > minLen then dtGo pred minLen r else c :: r

def dropTrailWhile (pred : Char → Bool) (minLen : Nat) (l : List Char) : List Char :=
  (dtGo pred minLen l.reverse).reverse

/-- `shorten_url`: strip the protocol and truncate with an ellipsis,
keeping the domain and a tail of the path. -/
def shorten_url (dstmax : Nat) (url : List Char) : List Char :=
  let d :=
    if ("https://".toList).isPrefixOf url then url.drop 8
    else if ("http://".toList).isPrefixOf url then url.drop 7
    else url
  let dlen := d.length
  if dlen ≤ 60 then d.take (min dlen (dstmax - 1))
  else
    match (d.enum.filter (fun p => p.2 = '/')).head? with
    | none => d.take (min 59 (dstmax - 4)) ++ gELL
    | some sl =>
      let domlen := sl.1 + 1
      let avail : Int := 60 - (domlen : Int) - 1
      if avail < 8 then d.take (min 59 (dstmax - 4)) ++ gELL
      else
        let tail0 := avail.toNat / 3
        let tail1 := min tail0 20
        let head0 := avail.toNat - tail1
        let path := d.drop domlen
        let pathlen := dlen - domlen
        let tail := min tail1 pathlen
        let headN := min head0 pathlen
        d.take domlen ++ path.take headN ++ gELL ++
          (if tail > 0 ∧ pathlen > tail then path.drop (pathlen - tail) else [])

/-- `shorten_path`: `…/parent/filename` when longer than 50 bytes. -/
def shorten_path (dstmax : Nat) (path : List Char) : List Char :=
  let plen := path.length
  if plen ≤ 50 then path.take (min plen (dstmax - 1))
  else
    let slashes := (path.enum.filter (fun p => p.2 = '/')).map (fun p => p.1)
    match slashes.getLast? with
    | none => gELL ++ ['/'] ++ path.take (min plen 48)
    | some lastIdx =>
      let prevPart :=
        match slashes.dropLast.getLast? with
        | some prevIdx =>
          if plen - prevIdx + 1 ≤ 50 then some (gELL ++ path.drop prevIdx)
          else none
        | none => none
      match prevPart with
      | some out => out
      | none =>
        if plen - lastIdx + 1 ≤ 50 then gELL ++ path.drop lastIdx
        else gELL ++ ['/'] ++ (path.drop (lastIdx + 1)).take 48

def litHttp : List Char := "http://".toList

def litHttps : List Char := "https://".toList

def osc8Open : List Char := [escC, ']', '8', ';', ';']

def osc8Close : List Char := [escC, ']', '8', ';', ';', belC]

def fileUriOpen : List Char := osc8Open ++ "file://".toList

/-- Main loop of `linkify`.  Every iteration consumes at least one
source byte, so fuel `length + 1` is never exhausted. -/
def lkGo (mx : Nat) (home : Option (List Char)) : Nat → List Char → List Char → List Char
  | 0, _, acc => acc
  | fuel + 1, src, acc =>
    match src with
    | [] => acc
    | c :: r =>
      if ¬ acc.length < mx - 200 then acc ++ src.take (mx - 1 - acc.length)
      else if c = escC ∧ r.head? = some '[' then
        let body := (r.drop 1).takeWhile (fun x => !(isalphaC x || x == '~'))
        let rest := (r.drop 1).drop body.length
        lkGo mx home fuel (rest.drop 1)
          (abnd mx acc (escC :: '[' :: (body ++ rest.take 1)))
      else if c = escC ∧ r.head? = some ']' then
        let p := sanCopyOsc (c :: r)
        lkGo mx home fuel p.2 (abnd mx acc p.1)
      else if c = escC then
        lkGo mx home fuel (r.drop 1) (abnd mx acc (c :: r.take 1))
      else if litHttp.isPrefixOf src || litHttps.isPrefixOf src then
        let run := src.takeWhile is_urlch
        let url := dropTrailWhile
          (fun x => x == '.' || x == ',' || x == ';' || x == ':') 0 run
        let ulen := url.length
        let rest := src.drop ulen
        if ulen > 10 ∧ acc.length + ulen + 200 < mx then
          let a1 := abnd mx acc osc8Open
          let a2 := abnd mx a1 url
          let a3 := abnd mx a2 [belC]
          let a4 := abnd mx a3 (C_URL ++ UL_ON)
          let a5 := abnd mx a4 (shorten_url 256 url)
          let a6 := abnd mx a5 UL_OFF
          lkGo mx home fuel rest (abnd mx a6 osc8Close)
        else lkGo mx home fuel rest (abnd mx acc url)
      else if (c = '/' ∧ (r.head?.map is_pathch).getD false) ∨
              (c = '~' ∧ r.head? = some '/' ∧
               ((r.drop 1).head?.map is_pathch).getD false) then
        let tilde := c = '~'
        let scanned := (if tilde then src.drop 2 else src.drop 1).takeWhile is_pathch
        let runLen := (if tilde then 2 else 1) + scanned.length
        let hasSlash := scanned.contains '/'
        if (tilde ∧ runLen ≥ 3) ∨ (hasSlash ∧ runLen ≥ 3) then
          let fp := dropTrailWhile (fun x => x == '.' || x == ',') 1 (src.take runLen)
          let fplen := fp.length
          let rest := src.drop fplen
          if acc.length + fplen + 200 < mx then
            let a1 := abnd mx acc fileUriOpen
            let a2 := abnd mx a1
              (if tilde then (home.getD []) ++ fp.drop 1 else fp)
            let a3 := abnd mx a2 [belC]
            let a4 := abnd mx a3 UL_ON
            let a5 := abnd mx a4 (shorten_path 256 fp)
            let a6 := abnd mx a5 UL_OFF
            lkGo mx home fuel rest (abnd mx a6 osc8Close)
          else lkGo mx home fuel rest (abnd mx acc fp)
        else lkGo mx home fuel r (abnd mx acc [c])
      else lkGo mx home fuel r (abnd mx acc [c])

/-- `linkify` into the fixed 32768-byte buffer of `L_pushw_link`. -/
def linkify (mx : Nat) (home : Option (List Char)) (src : List Char) : List Char :=
  lkGo mx home (src.length + 1) src []

def L_pushw_link (cols : Nat) (home : Option (List Char))
    (l : List (List Char)) (s : List Char) : List (List Char) :=
  L_pushw cols l (linkify 32768 home s)

/-- Decimal rendering of a number (for the `%d` footers). -/
def natCharsGo : Nat → Nat → List Char → List Char
  | 0, _, acc => acc
  | fuel + 1, n, acc =>
    let d := Char.ofNat (48 + n % 10)
    if n < 10 then d :: acc else natCharsGo fuel (n / 10) (d :: acc)

def natChars (n : Nat) : List Char := natCharsGo (n + 1) n []

/-- The line splitter of `render_md`: take up to the next newline (the
line buffer holds at most 8191 bytes; with no newline, the remainder of
an over-long line is processed as further lines). -/
def cSplitLines : Nat → List Char → List (List Char)
  | 0, _ => []
  | _ + 1, [] => []
  | fuel + 1, l =>
    let lnFull := l.takeWhile (fun c => !(c == '\n'))
    let hasEol := lnFull.length < l.length
    let ll := min lnFull.length 8191
    let rest := if hasEol then l.drop (lnFull.length + 1) else l.drop ll
    lnFull.take ll :: cSplitLines fuel rest

def mdSplit (text : List Char) : List (List Char) :=
  cSplitLines (text.length + 1) text

/-- The header rule built into the 512-byte `sep` buffer: at most 164
glyphs fit, and when exactly 164 are written the trailing reset code is
truncated to three bytes. -/
def sepRule (ul : Nat) : List Char :=
  let k := min ul 164
  C_SEP ++ (List.replicate k gHL).flatten ++ (if k = 164 then RS.take 3 else RS)

/-- One line of `render_md` (state: output lines, inside-fence flag). -/
def mdStep (cols : Nat) (home : Option (List Char))
    (st : List (List Char) × Bool) (lb : List Char) : List (List Char) × Bool :=
  let L := st.1
  let in_code := st.2
  if lb.take 3 = [btkC, btkC, btkC] then (L, !in_code)
  else if in_code then
    let pad := cols - 4 - lb.length
    let fb := (C_CBG ++ C_CFG ++ ("  ".toList) ++ lb ++
      List.replicate pad ' ' ++ RS).take 16383
    (L_pushw_link cols home L fb, in_code)
  else if lb.head? = some '#' ∧
      (lb.drop ((lb.takeWhile (fun c => c == '#')).length)).head? = some ' ' then
    let lv := (lb.takeWhile (fun c => c == '#')).length
    let ht := lb.drop (lv + 1)
    if lv = 1 then
      let fb := (BO ++ C_AST ++ ht ++ RS).take 16383
      (L ++ [[], fb, sepRule (min (ht.length + 2) cols)], in_code)
    else if lv = 2 then
      (L ++ [[], (BO ++ C_AST ++ ht ++ RS).take 16383], in_code)
    else
      (L ++ [(BO ++ DI ++ C_AST ++ ht ++ RS).take 16383], in_code)
  else
    let ind := (lb.takeWhile (fun c => c == ' ')).length
    let t := lb.drop ind
    if (t.head? = some '-' ∨ t.head? = some '*') ∧ (t.drop 1).head? = some ' ' then
      let fb := fmt_inline 16384 (t.drop 2)
      let ob2 := (List.replicate ind ' ' ++ C_AST ++ gBUL ++ (" ".toList) ++
        fb ++ RS).take 16383
      (L_pushw_link cols home L ob2, in_code)
    else if (lb.head?.map isdigitC).getD false ∧
        ((lb.drop ((lb.takeWhile isdigitC).length)).head? = some '.' ∧
         ((lb.drop ((lb.takeWhile isdigitC).length)).drop 1).head? = some ' ') then
      let num := lb.takeWhile isdigitC
      let fb := fmt_inline 16384 ((lb.drop num.length).drop 2)
      let ob2 := (C_AST ++ num ++ (". ".toList) ++ fb ++ RS).take 16383
      (L_pushw_link cols home L ob2, in_code)
    else if lb ≠ [] then
      (L_pushw_link cols home L (fmt_inline 16384 lb), in_code)
    else (L ++ [[]], in_code)

/-- `render_md`: fold the per-line step over the blob's lines, fence
state starting outside a fence. -/
def render_md (cols : Nat) (home : Option (List Char)) (L : List (List Char))
    (text : List Char) : List (List Char) :=
  ((mdSplit text).foldl (mdStep cols home) (L, false)).1

/-- Line enumeration shared by `is_diff` and the item renderer: the C
pointer walk visits the text's newline-separated lines; a trailing
newline yields no extra empty line. -/
def splitNlC : Nat → List Char → List (List Char)
  | 0, _ => []
  | _ + 1, [] => []
  | fuel + 1, l =>
    let ln := l.takeWhile (fun c => !(c == '\n'))
    ln :: splitNlC fuel (l.drop (ln.length + 1))

def splitNl (t : List Char) : List (List Char) := splitNlC (t.length + 1) t

/-- Flag-accumulating loop of `is_diff`. -/
def idGo : List (List Char) → Bool → Bool → Bool
  | [], hp, hm => hp && hm
  | ln :: rest, hp, hm =>
    idGo rest (hp || (ln.head? == some '+' && (ln.drop 1).head? != some '+'))
      (hm || (ln.head? == some '-' && (ln.drop 1).head? != some '-'))

/-- `is_diff`: at least one line starting with a lone `+` and one with
a lone `-`. -/
def is_diff (t : List Char) : Bool := idGo (splitNl t) false false

/-- `count_lines`. -/
def count_lines (t : List Char) : Nat := 1 + t.count '\n'

def MX_HUM : Nat := 20

def MX_RES : Nat := 6

/-- Body-line loop of the Human item renderer (`show` iterations; line
buffer cap `sizeof(b)-31`). -/
def humGo (cols : Nat) (home : Option (List Char)) :
    Nat → List Char → List (List Char) → List (List Char)
  | 0, _, L => L
  | k + 1, p, L =>
    let lnFull := p.takeWhile (fun c => !(c == '\n'))
    let hasEol := lnFull.length < p.length
    let ll := if lnFull.length > 16354 then 16353 else lnFull.length
    let L2 := L_pushw_link cols home L (DI ++ lnFull.take ll ++ RS)
    let p2 := if hasEol then p.drop (lnFull.length + 1) else p.drop ll
    humGo cols home k p2 L2

/-- Human item: header glyph line, up to 20 dimmed lines, footer. -/
def humRender (cols : Nat) (home : Option (List Char)) (L : List (List Char))
    (t : List Char) : List (List Char) :=
  let L1 := L ++ [('\n' :: (C_HUM ++ BO ++ gCHV ++ (" you".toList) ++ RS))]
  let nl := count_lines t
  let L2 := humGo cols home (min nl MX_HUM) t L1
  if nl > MX_HUM then
    L2 ++ [C_HDM ++ ("  ".toList) ++ gELL ++ (" (".toList) ++
      natChars (nl - MX_HUM) ++ (" more lines)".toList) ++ RS]
  else L2

/-- Tool invocation line. -/
def tuRender (cols : Nat) (home : Option (List Char)) (L : List (List Char))
    (nm lbl : List Char) : List (List Char) :=
  let b :=
    if lbl ≠ [] then
      C_TOL ++ gREC ++ (" ".toList) ++ BO ++ nm ++ RS ++ C_TOL ++
        ("(".toList) ++ lbl ++ (")".toList) ++ RS
    else C_TOL ++ gREC ++ (" ".toList) ++ BO ++ nm ++ RS
  L_pushw_link cols home L b

/-- Color chosen for one displayed tool-result line (the `lc` local). -/
def trLineColor (df : Bool) (col : List Char) (lnFull : List Char) : List Char :=
  if df then
    if lnFull.head? = some '+' ∧ (lnFull.drop 1).head? ≠ some '+' then C_DFG
    else if lnFull.head? = some '-' ∧ (lnFull.drop 1).head? ≠ some '-' then C_DFR
    else if lnFull.take 2 = ['@', '@'] then C_DFC
    else col
  else col

/-- Body-line loop of the tool-result renderer (breaks at the last
line; line cap `sizeof(b)-121`). -/
def trGo (cols : Nat) (home : Option (List Char)) (conn col : List Char)
    (df : Bool) : Nat → List Char → List (List Char) → List (List Char)
  | 0, _, L => L
  | k + 1, p, L =>
    let lnFull := p.takeWhile (fun c => !(c == '\n'))
    let hasEol := lnFull.length < p.length
    let ll := if lnFull.length > 16264 then 16263 else lnFull.length
    let lc := trLineColor df col lnFull
    let L2 := L_pushw_link cols home L (conn ++ lc ++ lnFull.take ll ++ RS)
    if hasEol then trGo cols home conn col df k (p.drop (lnFull.length + 1)) L2
    else L2

/-- Tool-result item: up to 6 lines with diff coloring, footer. -/
def trRender (cols : Nat) (home : Option (List Char)) (prevTu : Bool)
    (L : List (List Char)) (t : List Char) (ie : Bool) : List (List Char) :=
  let col := if ie then C_ERR else C_RES
  let conn := if prevTu then ("  ".toList) ++ C_CONN ++ gVL ++ RS ++ (" ".toList)
    else ("  ".toList)
  let df := is_diff t
  let nl := count_lines t
  let L2 := trGo cols home conn col df (min nl MX_RES) t L
  if nl > MX_RES then
    L2 ++ [conn ++ C_HDM ++ gELL ++ (" (".toList) ++ natChars (nl - MX_RES) ++
      (" more lines)".toList) ++ RS]
  else L2

/-- One item of `render_items` (state: lines, previous-item-was-tool
flag). -/
def riStep (cols : Nat) (home : Option (List Char))
    (st : List (List Char) × Bool) (it : Item) : List (List Char) × Bool :=
  match it with
  | .hum t => (humRender cols home st.1 t, false)
  | .ast t => (render_md cols home (st.1 ++ [[]]) t, false)
  | .tu nm lbl => (tuRender cols home st.1 nm lbl, true)
  | .tr t ie => (trRender cols home st.2 st.1 t ie, false)

def render_items (cols : Nat) (home : Option (List Char))
    (items : List Item) : List (List Char) :=
  (items.foldl (riStep cols home) ([], false)).1

/-- The two special buffer lines pushed by `run_pager`. -/
def endBannerLine : List Char :=
  C_HDM ++ ("  ".toList) ++ gHL ++ gHL ++ gHL ++ (" end of transcript ".toList) ++
    gHL ++ gHL ++ gHL ++ RS

def placeholderLine : List Char :=
  C_HDM ++ ("(transcript not found)".toList) ++ RS

/-- Full rebuild of the line buffer on a transcript mtime change. -/
def rebuildLines (cols : Nat) (home : Option (List Char))
    (tlines : List (List Char)) : List (List Char) :=
  render_items cols home (parse_transcript tlines).items ++
    [endBannerLine, [], []]

/-- The content-update step of one `run_pager` iteration: a non-empty
transcript path is stat-polled (an absent/unreadable file leaves the
buffer untouched); an empty path pushes the placeholder on the first
iteration only. -/
def contentUpdate (cols : Nat) (home : Option (List Char)) (pathNonempty : Bool)
    (file : Option (Int × List (List Char))) (last_mt : Int) (first : Bool)
    (L : List (List Char)) : List (List Char) :=
  if pathNonempty then
    match file with
    | some (mt, tlines) =>
      if mt ≠ last_mt then rebuildLines cols home tlines else L
    | none => L
  else if first then L ++ [placeholderLine]
  else L

/-- `geo_update`: on a successful geometry query with a positive column
count, cap the columns at 120 and take the rows as reported; otherwise
keep the previous values. -/
def geo_update (report : Option (Nat × Nat)) (prev : Nat × Nat) : Nat × Nat :=
  match report with
  | some (c, r) => if 0 < c then (min c 120, r) else prev
  | none => prev

/-- Content rows: `g_crows = g_rows - 3` (may be negative on tiny
terminals). -/
def crowsOf (rows : Nat) : Int := (rows : Int) - 3

/-- Keyboard events handled by the pager loop. -/
inductive PInput where
  | up
  | down
  | pgUp
  | pgDown
  | home
  | toEnd
  deriving DecidableEq

/-- Scroll delta returned by `poll_input` for non-jump keys. -/
def inputDelta (crows : Int) : PInput → Int
  | .up => -1
  | .down => 1
  | .pgUp => -(crows - 1)
  | .pgDown => crows - 1
  | _ => 0

def maxOffset (n : Nat) : Int := if 0 < n then (n : Int) - 1 else 0

/-- Offset after one input event, as computed in `run_pager` (Home and
End assign directly; deltas are clamped to `[0, max(0, n-1)]`). -/
def applyInput (n : Nat) (crows off : Int) : PInput → Int
  | .home => 0
  | .toEnd =>
    let b := (n : Int) - (crows - 1)
    if 0 < b then b else 0
  | i =>
    let o1 := off + inputDelta crows i
    let o2 := if o1 < 0 then 0 else o1
    if o2 > maxOffset n then maxOffset n else o2

/-! ## Specification-side notions used to state the claims -/

/-- Usage fields exposed by one raw transcript line, as the parser's
gates see them: `some` exactly when the line is a non-blank assistant
line with a `usage` object carrying that key. -/
def usageFieldsOf (raw : List Char) : Option Int × Option Int × Option Int :=
  let line := stripCRLF raw
  if line.length = 0 then (none, none, none)
  else
    match jfind line keyType, jfind line keyMessage with
    | some tv, some msg =>
      if jstreq (some tv) litAssistant then
        match jfind msg keyUsage with
        | some usg =>
          ((jfind usg keyInputTokens).map (fun v => jint (some v)),
           (jfind usg keyCacheCreation).map (fun v => jint (some v)),
           (jfind usg keyCacheRead).map (fun v => jint (some v)))
        | none => (none, none, none)
      else (none, none, none)
    | _, _ => (none, none, none)

/-- Per-field overwrite: a present field replaces the running value, an
absent field keeps it; nothing is ever summed. -/
def overwriteStep (u : Int × Int × Int) (f : Option Int × Option Int × Option Int) :
    Int × Int × Int :=
  (f.1.getD u.1, f.2.1.getD u.2.1, f.2.2.getD u.2.2)

/-- No ESC byte anywhere in the string. -/
def noEsc (l : List Char) : Prop := ∀ c ∈ l, c ≠ escC

instance (l : List Char) : Decidable (noEsc l) := by
  unfold noEsc; infer_instance

/-- Well-formed terminal escape sequences in the sense of the spec: a
CSI sequence `ESC [ …params… letter` whose parameter bytes are neither
letters nor `~`, or an OSC sequence `ESC ] …body… BEL` /
`ESC ] …body… ESC \` whose body holds neither BEL nor ESC. -/
inductive EscSeq : List Char → Prop where
  | csi (body : List Char) (fin : Char)
      (hb : ∀ c ∈ body, isalphaC c = false ∧ c ≠ '~') (hf : isalphaC fin = true) :
      EscSeq (escC :: '[' :: body ++ [fin])
  | oscBel (body : List Char) (hb : ∀ c ∈ body, c ≠ belC ∧ c ≠ escC) :
      EscSeq (escC :: ']' :: body ++ [belC])
  | oscSt (body : List Char) (hb : ∀ c ∈ body, c ≠ belC ∧ c ≠ escC) :
      EscSeq (escC :: ']' :: body ++ [escC, '\\'])

/-- A line starting with a lone `+` (not `++`). -/
def lonePlus (ln : List Char) : Prop :=
  ln.head? = some '+' ∧ (ln.drop 1).head? ≠ some '+'

/-- A line starting with a lone `-` (not `--`). -/
def loneMinus (ln : List Char) : Prop :=
  ln.head? = some '-' ∧ (ln.drop 1).head? ≠ some '-'

/-- The spec's diff heuristic: at least one lone-`+` line and at least
one lone-`-` line. -/
def diffLike (t : List Char) : Prop :=
  (∃ ln ∈ splitNl t, lonePlus ln) ∧ (∃ ln ∈ splitNl t, loneMinus ln)

/-- The line sequence the tool-result display loop walks: the
newline-separated lines, padded with empties up to `count_lines` (a
trailing newline makes the walk display one final empty line). -/
def renderLines (t : List Char) : List (List Char) :=
  splitNl t ++ List.replicate (count_lines t - (splitNl t).length) []

/-- All display rows produced for one tool-result body line: the
colored, linkified line plus any wrap continuations. -/
def trDisp (cols : Nat) (home : Option (List Char)) (df ie : Bool)
    (ln : List Char) : List (List Char) :=
  L_pushw cols [] (linkify 32768 home (("  ".toList) ++
    trLineColor df (if ie then C_ERR else C_RES) ln ++
    ln.take (if ln.length > 16264 then 16263 else ln.length) ++ RS))

/-- The `(N more lines)` footer of a tool result not preceded by a tool
invocation. -/
def trFooter (t : List Char) : List Char :=
  ("  ".toList) ++ C_HDM ++ gELL ++ (" (".toList) ++
    natChars (count_lines t - MX_RES) ++ (" more lines)".toList) ++ RS

/-! ## Concrete transcript lines used by witnesses and counterexamples -/

/-- Assistant line with usage `{100,0,0}`. -/
def exAsst100 : List Char :=
  "\x7b\"type\":\"assistant\",\"message\":\x7b\"usage\":\x7b\"input_tokens\":100,\"cache_creation_input_tokens\":0,\"cache_read_input_tokens\":0\x7d,\"content\":[]\x7d\x7d".toList

/-- Assistant line with usage `{50,10,0}`. -/
def exAsst50 : List Char :=
  "\x7b\"type\":\"assistant\",\"message\":\x7b\"usage\":\x7b\"input_tokens\":50,\"cache_creation_input_tokens\":10,\"cache_read_input_tokens\":0\x7d,\"content\":[]\x7d\x7d".toList

/-- User line with string content `hello`. -/
def exUserHello : List Char :=
  "\x7b\"type\":\"user\",\"message\":\x7b\"content\":\"hello\"\x7d\x7d".toList

/-- Assistant line with a tool_use whose input's first field is not a
string but whose second field is. -/
def exToolUseAB : List Char :=
  "\x7b\"type\":\"assistant\",\"message\":\x7b\"content\":[\x7b\"type\":\"tool_use\",\"name\":\"T\",\"input\":\x7b\"a\":1,\"b\":\"x\"\x7d\x7d]\x7d\x7d".toList

/-- The input object `{"a":1,"b":"x"}` of that tool_use. -/
def exInputAB : List Char := "\x7b\"a\":1,\"b\":\"x\"\x7d".toList

/-- A tool_use block with no `name` key. -/
def exNoName : List Char := "\x7b\"type\":\"tool_use\"\x7d".toList

/-- An input object whose `file_path` key has a string value. -/
def exInputFile : List Char := "\x7b\"file_path\":\"/tmp/x.py\"\x7d".toList

/-- A line with neither `type` nor `message`. -/
def exJunk : List Char := "\x7b\"foo\":1\x7d".toList


/-! ## Claim theorems -/

/-- Claim C2: with a positive column count, the wrapping push appends no
continuation line when the visible length is at most the column count,
and exactly `ceil(v / cols) - 1` empty continuation lines when it
exceeds it. -/
theorem pushw_continuation_lines (cols : Nat) (l : List (List Char))
    (s : List Char) (_hc : 0 < cols) :
    (vlen s ≤ cols → L_pushw cols l s = l ++ [s]) ∧
    (cols < vlen s →
      L_pushw cols l s = l ++ [s] ++ List.replicate (vlen s ⌈/⌉ cols - 1) []) := by
  constructor
  · intro h
    have hnot : ¬ vlen s > cols := not_lt.2 h
    simp [L_pushw, hnot]
  · intro h
    simp [L_pushw, h, Nat.ceilDiv_eq_add_pred_div]

/-- Witness for C2 at `cols = 5`: a 5-byte line gets no continuation, a
6-byte line gets `ceil(6/5) - 1 = 1`. -/
theorem pushw_continuation_lines_witness :
    L_pushw 5 [] ("abcde".toList) = [] ++ [("abcde".toList)] ∧
    L_pushw 5 [] ("abcdef".toList) =
      [] ++ [("abcdef".toList)] ++ List.replicate (vlen ("abcdef".toList) ⌈/⌉ 5 - 1) [] :=
  ⟨(pushw_continuation_lines 5 [] ("abcde".toList) (by decide)).1 (by decide),
   (pushw_continuation_lines 5 [] ("abcdef".toList) (by decide)).2 (by decide)⟩

/-- Claim C4 (counterexample): on a terminal with content rows 1 (total
rows 4) and a 1-line buffer, the End key sets the offset to 1, outside
`[0, max(0, lineCount-1)] = [0, 0]`. -/
theorem offset_clamp_fails_small_terminal :
    applyInput 1 1 0 PInput.toEnd = 1 ∧ maxOffset 1 = 0 := by decide

/-- Claim C4 (amended): after any single input event the offset lies in
`[0, max(0, lineCount-1)]`, provided the event is not End or the
content-row count is at least 2 (End jumps to
`max(0, lineCount - (contentRows - 1))`, which exceeds the bound on
smaller terminals). -/
theorem offset_clamp_after_input (n : Nat) (crows off : Int) (i : PInput)
    (h : 2 ≤ crows ∨ i ≠ PInput.toEnd) :
    0 ≤ applyInput n crows off i ∧ applyInput n crows off i ≤ maxOffset n := by
  cases i with
  | toEnd =>
    have hc : 2 ≤ crows := by
      rcases h with h | h
      · exact h
      · exact absurd rfl h
    simp only [applyInput, maxOffset]
    constructor <;> (repeat' split) <;> omega
  | home =>
    simp only [applyInput, maxOffset]
    constructor <;> (repeat' split) <;> omega
  | up =>
    simp only [applyInput, inputDelta, maxOffset]
    constructor <;> (repeat' split) <;> omega
  | down =>
    simp only [applyInput, inputDelta, maxOffset]
    constructor <;> (repeat' split) <;> omega
  | pgUp =>
    simp only [applyInput, inputDelta, maxOffset]
    constructor <;> (repeat' split) <;> omega
  | pgDown =>
    simp only [applyInput, inputDelta, maxOffset]
    constructor <;> (repeat' split) <;> omega

/-- Witness for C4 (amended): Page Down on a 5-line buffer with 10
content rows. -/
theorem offset_clamp_after_input_witness :
    0 ≤ applyInput 5 10 3 PInput.pgDown ∧
      applyInput 5 10 3 PInput.pgDown ≤ maxOffset 5 :=
  offset_clamp_after_input 5 10 3 PInput.pgDown (Or.inl (by decide))

/-- Claim C6 (counterexample): with a non-empty transcript path naming
an absent file (stat fails), the first pager iteration leaves the line
buffer empty — no "transcript not found" placeholder is shown (the
placeholder is pushed only when the path itself is empty). -/
theorem missing_file_no_placeholder :
    contentUpdate 100 none true none 0 true [] = [] ∧
    (contentUpdate 100 none true none 0 true []).all
      (fun ln => !(strstrB ("transcript not found".toList) ln)) = true := by
  constructor
  · rfl
  · rfl

/-- Claim C6 (amended): an absent/unreadable transcript file makes the
parser return the zeroed state (no items, usage untouched, token total
0) and leaves the line buffer unchanged, while the "transcript not
found" placeholder line is appended exactly when the transcript *path*
is empty and this is the first iteration. -/
theorem transcript_missing_handling (cols : Nat) (home : Option (List Char))
    (L : List (List Char)) (mt : Int) (f : Option (Int × List (List Char))) :
    parseFileT none = initPState ∧
    outTok (parseFileT none) = 0 ∧
    contentUpdate cols home false f mt true L = L ++ [placeholderLine] ∧
    contentUpdate cols home true none mt true L = L ∧
    strstrB ("transcript not found".toList) placeholderLine = true := by
  refine ⟨rfl, by decide, ?_, rfl, by decide⟩
  simp [contentUpdate]

/-- Claim C10: after a successful geometry query with positive reported
width, the column count is the reported width capped at 120 (exactly
120 above, unchanged at or below), hence always at most 120 — and also
at most 120 when the query fails and the previous value was; the row
count is taken uncapped from the report. -/
theorem geometry_column_cap (c r pc pr : Nat) (hc : 0 < c) (hprev : pc ≤ 120) :
    geo_update (some (c, r)) (pc, pr) = (min c 120, r) ∧
    (120 < c → (geo_update (some (c, r)) (pc, pr)).1 = 120) ∧
    (c ≤ 120 → (geo_update (some (c, r)) (pc, pr)).1 = c) ∧
    (geo_update (some (c, r)) (pc, pr)).1 ≤ 120 ∧
    (geo_update (some (c, r)) (pc, pr)).2 = r ∧
    (geo_update none (pc, pr)).1 ≤ 120 := by
  refine ⟨?_, ?_, ?_, ?_, ?_, ?_⟩ <;>
    simp only [geo_update, if_pos hc, Nat.min_def] <;> intros <;>
    (repeat' split) <;> omega

/-- Witness for C10: a 200×50 report is capped to 120 columns, rows
kept. -/
theorem geometry_column_cap_witness :
    geo_update (some (200, 50)) (100, 24) = (min 200 120, 50) ∧
    (120 < 200 → (geo_update (some (200, 50)) (100, 24)).1 = 120) ∧
    (200 ≤ 120 → (geo_update (some (200, 50)) (100, 24)).1 = 200) ∧
    (geo_update (some (200, 50)) (100, 24)).1 ≤ 120 ∧
    (geo_update (some (200, 50)) (100, 24)).2 = 50 ∧
    (geo_update none (100, 24)).1 ≤ 120 :=
  geometry_column_cap 200 50 100 24 (by decide) (by decide)

/-- If no priority key of `ks` is present in `inp` with a string value,
the priority loop finds nothing. -/
theorem prioPick_none (ks : List (List Char)) (inp : List Char)
    (h : ∀ k ∈ ks, (jfind inp k).map (fun w => w.head?) ≠ some (some '"')) :
    prioPick ks inp = none := by
  induction ks with
  | nil => rfl
  | cons k ks ih =>
    have htail : ∀ k' ∈ ks, (jfind inp k').map (fun w => w.head?) ≠ some (some '"') :=
      fun k' hk' => h k' (List.mem_cons_of_mem _ hk')
    simp only [prioPick]
    cases hk : jfind inp k with
    | none => exact ih htail
    | some w =>
      have hw : ¬ w.head? = some '"' := by
        intro hcontra
        exact h k (List.mem_cons_self _ _) (by rw [hk]; simp [hcontra])
      simp only [if_neg hw]
      exact ih htail

/-- Claim C7 (counterexample): for a tool_use whose `input` is
`{"a":1,"b":"x"}` — no priority key, first field not a string, second
field a string — the emitted invocation has an *empty* label, not the
claimed first-string-valued-field label `x`. -/
theorem tool_label_not_first_string_field :
    (parse_transcript [exToolUseAB]).items = [Item.tu ("T".toList) []] ∧
    tuLabel (some exInputAB) = [] ∧
    firstFieldLbl exInputAB = [] := by
  refine ⟨by decide, by decide, by decide⟩

/-- Claim C7 (amended): the tool name defaults to `?` when the `name`
key is absent; the label is the decoded value of the first priority key
present in `input` with a string value; when no priority key has a
string value the fallback inspects only the *first* field of `input`
(taking its value when that value is a string, else leaving the label
empty); over-long labels are cut to 69 bytes plus three dots. -/
theorem tool_invocation_labeling (el inp d : List Char) :
    (jfind el keyName = none → tuName el = ['?']) ∧
    (prioPick lblKeys inp = some d → d ≠ [] → tuLabel (some inp) = d) ∧
    ((∀ k ∈ lblKeys, (jfind inp k).map (fun w => w.head?) ≠ some (some '"')) →
      tuLabel (some inp) = firstFieldLbl inp) ∧
    (72 < d.length → truncLbl d = d.take 69 ++ ['.', '.', '.']) := by
  refine ⟨?_, ?_, ?_, ?_⟩
  · intro h; unfold tuName; rw [h]
  · intro hp hd
    have hdef : tuLabel (some inp) =
        (if ((prioPick lblKeys inp).getD []) = [] then firstFieldLbl inp
         else ((prioPick lblKeys inp).getD [])) := rfl
    rw [hdef, hp]
    simp only [Option.getD_some]
    rw [if_neg hd]
  · intro h
    have hdef : tuLabel (some inp) =
        (if ((prioPick lblKeys inp).getD []) = [] then firstFieldLbl inp
         else ((prioPick lblKeys inp).getD [])) := rfl
    rw [hdef, prioPick_none lblKeys inp h]
    simp
  · intro h; unfold truncLbl; rw [if_pos h]

/-- Witness for C7 (amended): a nameless block, a `file_path` input, and
the `{"a":1,"b":"x"}` input exercising the three label paths. -/
theorem tool_invocation_labeling_witness :
    tuName exNoName = ['?'] ∧
    tuLabel (some exInputFile) = ("/tmp/x.py".toList) ∧
    tuLabel (some exInputAB) = firstFieldLbl exInputAB :=
  ⟨(tool_invocation_labeling exNoName exInputAB []).1 (by decide),
   (tool_invocation_labeling exNoName exInputFile ("/tmp/x.py".toList)).2.1
     (by decide) (by decide),
   (tool_invocation_labeling exNoName exInputAB []).2.2.1 (by decide)⟩

/-- Claim C8 (counterexample): rendering `# Hi` at 100 columns emits the
blank line, the bold title, and a rule of 4 glyphs — `strlen("Hi") + 2`
— not a full-width 100-glyph rule. -/
theorem h1_rule_not_full_width :
    mdStep 100 none ([], false) (("# Hi").toList) =
      ([[], BO ++ C_AST ++ ("Hi".toList) ++ RS,
        C_SEP ++ (List.replicate 4 gHL).flatten ++ RS], false) ∧
    C_SEP ++ (List.replicate 4 gHL).flatten ++ RS ≠
      C_SEP ++ (List.replicate 100 gHL).flatten ++ RS := by
  refine ⟨by decide, by decide⟩

/-- The rule buffer never truncates for widths up to 163. -/
theorem sepRule_small (u : Nat) (h : u ≤ 163) :
    sepRule u = C_SEP ++ (List.replicate u gHL).flatten ++ RS := by
  simp only [sepRule, Nat.min_eq_left (show u ≤ 164 by omega)]
  rw [if_neg (by omega)]

/-- Claim C8 (amended): outside a fence, a line `# title` makes the
renderer emit, in order, a blank line, the bold title line, and — not a
full-width rule but — a rule of `min(len(title) + 2, columns)` glyphs
immediately after the title (`render_md` folds this step over the
blob's lines).  The column bound is the geometry invariant of C10, the
length bound the splitter's line-buffer cap. -/
theorem h1_header_rendering (cols : Nat) (home : Option (List Char))
    (L : List (List Char)) (t : List Char)
    (hcols : cols ≤ 120) (hlen : t.length ≤ 8189) :
    mdStep cols home (L, false) ('#' :: ' ' :: t) =
      (L ++ [[], BO ++ C_AST ++ t ++ RS,
        C_SEP ++ (List.replicate (min (t.length + 2) cols) gHL).flatten ++ RS],
       false) := by
  have h1 : ¬ (('#' :: ' ' :: t).take 3 = [btkC, btkC, btkC]) := by
    intro h
    rw [List.take_succ_cons, List.take_succ_cons] at h
    injection h with ha _
    exact absurd ha (by decide)
  have h2 : ('#' :: ' ' :: t).takeWhile (fun c => c == '#') = ['#'] := by
    rw [List.takeWhile_cons, if_pos (by decide), List.takeWhile_cons,
      if_neg (by decide)]
  have hfb : (BO ++ C_AST ++ t ++ RS).length ≤ 16383 := by
    have e1 : BO.length = 4 := by decide
    have e2 : C_AST.length = 19 := by decide
    have e3 : RS.length = 4 := by decide
    simp only [List.length_append, e1, e2, e3]
    omega
  unfold mdStep
  dsimp only
  rw [if_neg h1, if_neg (show ¬ (false = true) by decide)]
  rw [h2]
  simp only [List.head?_cons, List.length_cons, List.length_nil,
    List.drop_succ_cons, List.drop_zero]
  rw [List.take_of_length_le hfb, sepRule_small _ (by omega)]
  simp

/-- Witness for C8 (amended) at 100 columns with title `Hi`. -/
theorem h1_header_rendering_witness :
    mdStep 100 none ([], false) ('#' :: ' ' :: ("Hi".toList)) =
      ([] ++ [[], BO ++ C_AST ++ ("Hi".toList) ++ RS,
        C_SEP ++ (List.replicate (min (("Hi".toList).length + 2) 100) gHL).flatten ++ RS],
       false) :=
  h1_header_rendering 100 none [] ("Hi".toList) (by decide) (by decide)

/-- A line that is blank after CR/LF stripping, or lacks a top-level
`type` or `message` key, leaves the parser state unchanged. -/
theorem skipped_line_step (st : PState) (bad : List Char)
    (h : stripCRLF bad = [] ∨ jfind (stripCRLF bad) keyType = none ∨
         jfind (stripCRLF bad) keyMessage = none) :
    lineStep st bad = st := by
  simp only [lineStep]
  by_cases hlen : (stripCRLF bad).length = 0
  · rw [if_pos hlen]
  · rw [if_neg hlen]
    rcases h with h | h | h
    · exact absurd (by rw [h]; rfl) hlen
    · rw [h]
    · rw [h]
      cases ht : jfind (stripCRLF bad) keyType <;> rfl

/-- Claim C5: a transcript line that is blank or lacks a top-level
`type` or `message` key contributes no items, leaves the usage fields
untouched, and all remaining lines are processed exactly as if the
line were not there. -/
theorem skipped_lines_ignored (pre post : List (List Char)) (bad : List Char)
    (h : stripCRLF bad = [] ∨ jfind (stripCRLF bad) keyType = none ∨
         jfind (stripCRLF bad) keyMessage = none) :
    parse_transcript (pre ++ bad :: post) = parse_transcript (pre ++ post) := by
  unfold parse_transcript
  rw [List.foldl_append, List.foldl_append, List.foldl_cons,
    skipped_line_step _ bad h]

/-- Witness for C5: a `{"foo":1}` line between a user and an assistant
line changes nothing. -/
theorem skipped_lines_ignored_witness :
    parse_transcript ([exUserHello] ++ exJunk :: [exAsst100]) =
      parse_transcript ([exUserHello] ++ [exAsst100]) :=
  skipped_lines_ignored [exUserHello] [exAsst100] exJunk (by decide)

/-- One parser line updates the usage fields exactly by per-field
overwrite with the fields the line exposes. -/
theorem lineStep_usage (st : PState) (raw : List Char) :
    ((lineStep st raw).li, (lineStep st raw).lcc, (lineStep st raw).lcr) =
      overwriteStep (st.li, st.lcc, st.lcr) (usageFieldsOf raw) := by
  simp only [lineStep, usageFieldsOf, overwriteStep]
  by_cases hlen : (stripCRLF raw).length = 0
  · simp [hlen]
  · simp only [if_neg hlen]
    cases ht : jfind (stripCRLF raw) keyType with
    | none => cases hm : jfind (stripCRLF raw) keyMessage <;> simp
    | some tv =>
      cases hm : jfind (stripCRLF raw) keyMessage with
      | none => simp
      | some msg =>
        by_cases ha : jstreq (some tv) litAssistant = true
        · simp only [if_pos ha]
          cases hu : jfind msg keyUsage with
          | none => simp
          | some usg =>
            cases h1 : jfind usg keyInputTokens <;>
              cases h2 : jfind usg keyCacheCreation <;>
                cases h3 : jfind usg keyCacheRead <;>
                  cases hct : jfind msg keyContent <;> simp [h1, h2, h3]
        · simp only [if_neg ha]
          by_cases hu2 : jstreq (some tv) litUser = true
          · simp only [if_pos hu2]
            cases hct : jfind msg keyContent <;> simp
          · simp [if_neg hu2]

/-- The usage projection of the parser fold is the per-field overwrite
fold. -/
theorem parse_usage_fold_aux (lines : List (List Char)) :
    ∀ st : PState,
      ((lines.foldl lineStep st).li, (lines.foldl lineStep st).lcc,
        (lines.foldl lineStep st).lcr) =
      lines.foldl (fun u raw => overwriteStep u (usageFieldsOf raw))
        (st.li, st.lcc, st.lcr) := by
  induction lines with
  | nil => intro st; rfl
  | cons raw rest ih =>
    intro st
    rw [List.foldl_cons, List.foldl_cons, ih (lineStep st raw), lineStep_usage]

/-- Claim C1: the final usage snapshot is the per-field overwrite fold
over the transcript lines, in file order — a field present in a later
usage object replaces the running value, an absent field keeps it, and
nothing is summed; in particular usage `{100,0,0}` followed by
`{50,10,0}` yields a final total of 60, not 160. -/
theorem usage_snapshot_overwrite :
    (∀ lines : List (List Char),
      ((parse_transcript lines).li, (parse_transcript lines).lcc,
        (parse_transcript lines).lcr) =
      lines.foldl (fun u raw => overwriteStep u (usageFieldsOf raw)) (0, 0, 0)) ∧
    outTok (parse_transcript [exAsst100, exAsst50]) = 60 := by
  constructor
  · intro lines
    exact parse_usage_fold_aux lines initPState
  · decide

theorem csiSkip_length_le (l : List Char) : (csiSkip l).length ≤ l.length := by
  induction l with
  | nil => simp [csiSkip]
  | cons c r ih =>
    simp only [csiSkip]
    split
    · simp
    · simp only [List.length_cons]; omega

theorem oscSkip_length_le (l : List Char) : (oscSkip l).length ≤ l.length := by
  induction l with
  | nil => simp [oscSkip]
  | cons c r ih =>
    simp only [oscSkip]
    split
    · simp
    · split
      · simp only [List.length_drop, List.length_cons]; omega
      · simp only [List.length_cons]; omega

/-- The visible-length loop is fuel-insensitive once the fuel exceeds
the input length. -/
theorem vlenF_congr : ∀ f1 f2 (l : List Char), l.length < f1 → l.length < f2 →
    vlenF f1 l = vlenF f2 l := by
  intro f1
  induction f1 with
  | zero => intro f2 l h1 _; omega
  | succ f ihf =>
    intro f2 l h1 h2
    cases f2 with
    | zero => omega
    | succ g =>
      cases l with
      | nil => rfl
      | cons c r =>
        simp only [vlenF, List.length_cons] at h1 h2 ⊢
        by_cases hc : c = escC
        · rw [if_pos hc, if_pos hc]
          cases r with
          | nil => rfl
          | cons d r2 =>
            dsimp only
            simp only [List.length_cons] at h1 h2
            by_cases hd1 : d = '['
            · rw [if_pos hd1, if_pos hd1]
              have := csiSkip_length_le r2
              exact ihf g (csiSkip r2) (by omega) (by omega)
            · rw [if_neg hd1, if_neg hd1]
              by_cases hd2 : d = ']'
              · rw [if_pos hd2, if_pos hd2]
                have := oscSkip_length_le r2
                exact ihf g (oscSkip r2) (by omega) (by omega)
              · rw [if_neg hd2, if_neg hd2]
                exact ihf g r2 (by omega) (by omega)
        · rw [if_neg hc, if_neg hc]
          have := ihf g r (by omega) (by omega)
          omega

theorem vlen_cons (c : Char) (l : List Char) (hc : c ≠ escC) :
    vlen (c :: l) = 1 + vlen l := by
  show vlenF ((c :: l).length + 1) (c :: l) = 1 + vlen l
  simp only [List.length_cons, vlenF, if_neg hc]
  rfl

theorem vlen_append_noEsc (a t : List Char) (ha : noEsc a) :
    vlen (a ++ t) = a.length + vlen t := by
  induction a with
  | nil => simp
  | cons c a2 ih =>
    have hc : c ≠ escC := ha c (List.mem_cons_self _ _)
    have ha2 : noEsc a2 := fun x hx => ha x (List.mem_cons_of_mem _ hx)
    rw [List.cons_append, vlen_cons c (a2 ++ t) hc, ih ha2]
    simp only [List.length_cons]
    omega

theorem csiSkip_through (body : List Char) (fin : Char) (b : List Char)
    (hb : ∀ c ∈ body, isalphaC c = false ∧ c ≠ '~') (hf : isalphaC fin = true) :
    csiSkip (body ++ fin :: b) = b := by
  induction body with
  | nil =>
    simp only [List.nil_append, csiSkip]
    rw [if_pos (by simp [hf])]
  | cons c r ih =>
    have hc := hb c (List.mem_cons_self _ _)
    simp only [List.cons_append, csiSkip]
    rw [if_neg (by simp [hc.1, hc.2])]
    exact ih (fun x hx => hb x (List.mem_cons_of_mem _ hx))

theorem oscSkip_bel (body b : List Char) (hb : ∀ c ∈ body, c ≠ belC ∧ c ≠ escC) :
    oscSkip (body ++ belC :: b) = b := by
  induction body with
  | nil =>
    show (if belC = belC then b
      else if belC = escC ∧ b.head? = some '\\' then b.drop 1
      else oscSkip b) = b
    rw [if_pos rfl]
  | cons c r ih =>
    have hc := hb c (List.mem_cons_self _ _)
    simp only [List.cons_append, oscSkip]
    rw [if_neg hc.1, if_neg (fun h => hc.2 h.1)]
    exact ih (fun x hx => hb x (List.mem_cons_of_mem _ hx))

theorem oscSkip_st (body b : List Char) (hb : ∀ c ∈ body, c ≠ belC ∧ c ≠ escC) :
    oscSkip (body ++ escC :: '\\' :: b) = b := by
  induction body with
  | nil =>
    show (if escC = belC then '\\' :: b
      else if escC = escC ∧ ('\\' :: b).head? = some '\\' then ('\\' :: b).drop 1
      else oscSkip ('\\' :: b)) = b
    rw [if_neg (by decide : ¬ escC = belC), if_pos ⟨rfl, rfl⟩]
    rfl
  | cons c r ih =>
    have hc := hb c (List.mem_cons_self _ _)
    simp only [List.cons_append, oscSkip]
    rw [if_neg hc.1, if_neg (fun h => hc.2 h.1)]
    exact ih (fun x hx => hb x (List.mem_cons_of_mem _ hx))

theorem vlenF_esc_csi (f : Nat) (x : List Char) :
    vlenF (f + 2) (escC :: '[' :: x) = vlenF (f + 1) (csiSkip x) := rfl

theorem vlenF_esc_osc (f : Nat) (x : List Char) :
    vlenF (f + 2) (escC :: ']' :: x) = vlenF (f + 1) (oscSkip x) := rfl

/-- Appending a well-formed escape sequence in front of any string
leaves the visible length of the remainder unchanged: the whole
sequence is skipped. -/
theorem vlen_escseq_append (q b : List Char) (hq : EscSeq q) :
    vlen (q ++ b) = vlen b := by
  cases hq with
  | csi body fin hb hf =>
    have e1 : (escC :: '[' :: body ++ [fin]) ++ b =
        escC :: '[' :: (body ++ fin :: b) := by simp
    have e2 : (escC :: '[' :: (body ++ fin :: b)).length + 1 =
        (body.length + b.length + 2) + 2 := by simp; omega
    calc vlen ((escC :: '[' :: body ++ [fin]) ++ b)
        = vlenF ((escC :: '[' :: (body ++ fin :: b)).length + 1)
            (escC :: '[' :: (body ++ fin :: b)) := by rw [e1]; rfl
      _ = vlenF ((body.length + b.length + 2) + 2)
            (escC :: '[' :: (body ++ fin :: b)) := by rw [e2]
      _ = vlenF ((body.length + b.length + 2) + 1) (csiSkip (body ++ fin :: b)) :=
            vlenF_esc_csi _ _
      _ = vlenF ((body.length + b.length + 2) + 1) b := by
            rw [csiSkip_through body fin b hb hf]
      _ = vlen b := vlenF_congr _ _ b (by omega) (by omega)
  | oscBel body hb =>
    have e1 : (escC :: ']' :: body ++ [belC]) ++ b =
        escC :: ']' :: (body ++ belC :: b) := by simp
    have e2 : (escC :: ']' :: (body ++ belC :: b)).length + 1 =
        (body.length + b.length + 2) + 2 := by simp; omega
    calc vlen ((escC :: ']' :: body ++ [belC]) ++ b)
        = vlenF ((escC :: ']' :: (body ++ belC :: b)).length + 1)
            (escC :: ']' :: (body ++ belC :: b)) := by rw [e1]; rfl
      _ = vlenF ((body.length + b.length + 2) + 2)
            (escC :: ']' :: (body ++ belC :: b)) := by rw [e2]
      _ = vlenF ((body.length + b.length + 2) + 1) (oscSkip (body ++ belC :: b)) :=
            vlenF_esc_osc _ _
      _ = vlenF ((body.length + b.length + 2) + 1) b := by
            rw [oscSkip_bel body b hb]
      _ = vlen b := vlenF_congr _ _ b (by omega) (by omega)
  | oscSt body hb =>
    have e1 : (escC :: ']' :: body ++ [escC, '\\']) ++ b =
        escC :: ']' :: (body ++ escC :: '\\' :: b) := by simp
    have e2 : (escC :: ']' :: (body ++ escC :: '\\' :: b)).length + 1 =
        (body.length + b.length + 3) + 2 := by simp; omega
    calc vlen ((escC :: ']' :: body ++ [escC, '\\']) ++ b)
        = vlenF ((escC :: ']' :: (body ++ escC :: '\\' :: b)).length + 1)
            (escC :: ']' :: (body ++ escC :: '\\' :: b)) := by rw [e1]; rfl
      _ = vlenF ((body.length + b.length + 3) + 2)
            (escC :: ']' :: (body ++ escC :: '\\' :: b)) := by rw [e2]
      _ = vlenF ((body.length + b.length + 3) + 1)
            (oscSkip (body ++ escC :: '\\' :: b)) := vlenF_esc_osc _ _
      _ = vlenF ((body.length + b.length + 3) + 1) b := by
            rw [oscSkip_st body b hb]
      _ = vlen b := vlenF_congr _ _ b (by omega) (by omega)

/-- Claim C3 (counterexample): the invariance fails for strings that
themselves contain a bare ESC byte: `vlen "\x1b" = 0`, but inserting
the CSI sequence `ESC [ m` after it gives `vlen "\x1b\x1b[m" = 2` —
the bare ESC swallows the inserted sequence's ESC, exposing `[` and
`m` as visible bytes. -/
theorem vlen_escape_invariance_fails :
    EscSeq [escC, '[', 'm'] ∧
    vlen ([escC] ++ [escC, '[', 'm'] ++ []) ≠ vlen ([escC] ++ []) := by
  constructor
  · exact EscSeq.csi [] 'm' (by simp) (by decide)
  · decide

/-- Claim C3 (amended): for every string that contains no ESC byte,
inserting one well-formed CSI or OSC sequence at any position leaves
the visible length unchanged. -/
theorem vlen_insert_escape (a q b : List Char) (ha : noEsc a) (_hb : noEsc b)
    (hq : EscSeq q) : vlen (a ++ q ++ b) = vlen (a ++ b) := by
  rw [List.append_assoc, vlen_append_noEsc a (q ++ b) ha,
    vlen_append_noEsc a b ha, vlen_escseq_append q b hq]

/-- Witness for C3 (amended): inserting `ESC [ 3 2 m` between `ab` and
`cd`. -/
theorem vlen_insert_escape_witness :
    vlen (("ab".toList) ++ [escC, '[', '3', '2', 'm'] ++ ("cd".toList)) =
      vlen (("ab".toList) ++ ("cd".toList)) :=
  vlen_insert_escape ("ab".toList) [escC, '[', '3', '2', 'm'] ("cd".toList)
    (by decide) (by decide) (EscSeq.csi ['3', '2'] 'm' (by decide) (by decide))

/-- The flag-accumulating diff scan realizes the two existentials. -/
theorem idGo_spec (ls : List (List Char)) : ∀ hp hm : Bool,
    (idGo ls hp hm = true ↔
      ((hp = true ∨ ∃ ln ∈ ls, lonePlus ln) ∧
       (hm = true ∨ ∃ ln ∈ ls, loneMinus ln))) := by
  induction ls with
  | nil =>
    intro hp hm
    simp [idGo]
  | cons ln rest ih =>
    intro hp hm
    have e1 : ((ln.head? == some '+' && (ln.drop 1).head? != some '+') = true) ↔
        lonePlus ln := by
      simp [lonePlus, Bool.and_eq_true, beq_iff_eq, bne_iff_ne]
    have e2 : ((ln.head? == some '-' && (ln.drop 1).head? != some '-') = true) ↔
        loneMinus ln := by
      simp [loneMinus, Bool.and_eq_true, beq_iff_eq, bne_iff_ne]
    simp only [idGo]
    rw [ih]
    simp only [Bool.or_eq_true, e1, e2, List.exists_mem_cons_iff]
    tauto

/-- Claim C9 first half as a standalone step: the code's `is_diff` equals
the spec's diff heuristic. -/
theorem is_diff_iff (t : List Char) : is_diff t = true ↔ diffLike t := by
  unfold is_diff diffLike
  rw [idGo_spec]
  simp

theorem splitNlC_congr : ∀ f1 f2 (l : List Char), l.length < f1 → l.length < f2 →
    splitNlC f1 l = splitNlC f2 l := by
  intro f1
  induction f1 with
  | zero => intro f2 l h1 _; omega
  | succ f ihf =>
    intro f2 l h1 h2
    cases f2 with
    | zero => omega
    | succ g =>
      cases l with
      | nil => rfl
      | cons c r =>
        simp only [splitNlC]
        congr 1
        have hd : ((c :: r).drop
            (((c :: r).takeWhile (fun x => !(x == '\n'))).length + 1)).length ≤
            r.length := by
          rw [List.length_drop]
          simp only [List.length_cons]
          omega
        simp only [List.length_cons] at h1 h2
        exact ihf g _ (by omega) (by omega)

theorem splitNl_cons (p : List Char) (hne : p ≠ []) :
    splitNl p = p.takeWhile (fun c => !(c == '\n')) ::
      splitNl (p.drop ((p.takeWhile (fun c => !(c == '\n'))).length + 1)) := by
  unfold splitNl
  cases p with
  | nil => exact absurd rfl hne
  | cons c r =>
    simp only [splitNlC]
    congr 1
    apply splitNlC_congr
    · rw [List.length_drop]
      simp only [List.length_cons]
      omega
    · omega

/-- The head of a non-empty `dropWhile` result fails the predicate. -/
theorem dropWhile_head_false (q : Char → Bool) : ∀ (l : List Char) (x : Char)
    (xs : List Char), l.dropWhile q = x :: xs → q x = false := by
  intro l
  induction l with
  | nil => intro x xs h; simp at h
  | cons c r ih =>
    intro x xs h
    rw [List.dropWhile_cons] at h
    by_cases hc : q c = true
    · rw [if_pos hc] at h
      exact ih x xs h
    · rw [if_neg hc] at h
      cases h
      simpa using hc

/-- Decomposition of a text at its first newline. -/
theorem eol_decomp (p : List Char)
    (he : (p.takeWhile (fun c => !(c == '\n'))).length < p.length) :
    p.drop ((p.takeWhile (fun c => !(c == '\n'))).length) =
      '\n' :: p.drop ((p.takeWhile (fun c => !(c == '\n'))).length + 1) ∧
    p.count '\n' =
      1 + (p.drop ((p.takeWhile (fun c => !(c == '\n'))).length + 1)).count '\n' := by
  have hsplit : p.takeWhile (fun c => !(c == '\n')) ++
      p.dropWhile (fun c => !(c == '\n')) = p :=
    List.takeWhile_append_dropWhile _ p
  have hdrop := List.drop_left (p.takeWhile (fun c => !(c == '\n')))
    (p.dropWhile (fun c => !(c == '\n')))
  rw [hsplit] at hdrop
  have hlen := congrArg List.length hsplit
  rw [List.length_append] at hlen
  cases hdwe : p.dropWhile (fun c => !(c == '\n')) with
  | nil => rw [hdwe] at hlen; simp at hlen; omega
  | cons x xs =>
    have hx : x = '\n' := by
      have hq := dropWhile_head_false (fun c => !(c == '\n')) p x xs hdwe
      simpa using hq
    subst hx
    have hxs : p.drop ((p.takeWhile (fun c => !(c == '\n'))).length + 1) = xs := by
      have h1 : p.drop ((p.takeWhile (fun c => !(c == '\n'))).length + 1) =
          (p.drop ((p.takeWhile (fun c => !(c == '\n'))).length)).drop 1 := by
        rw [List.drop_drop]
      rw [h1, hdrop, hdwe]
      rfl
    have hctw : (p.takeWhile (fun c => !(c == '\n'))).count '\n' = 0 := by
      refine List.count_eq_zero.2 (fun hmem => ?_)
      have := List.mem_takeWhile_imp hmem
      simp at this
    constructor
    · rw [hdrop, hdwe, hxs]
    · conv_lhs => rw [← hsplit]
      rw [List.count_append, hctw, hdwe, hxs]
      simp [List.count_cons]
      omega

/-- Walking past the first line of a multi-line text peels one entry
off the padded render-line list. -/
theorem renderLines_cons (p : List Char)
    (he : (p.takeWhile (fun c => !(c == '\n'))).length < p.length) :
    renderLines p = p.takeWhile (fun c => !(c == '\n')) ::
      renderLines (p.drop ((p.takeWhile (fun c => !(c == '\n'))).length + 1)) ∧
    count_lines p =
      1 + count_lines (p.drop ((p.takeWhile (fun c => !(c == '\n'))).length + 1)) := by
  obtain ⟨-, hcount⟩ := eol_decomp p he
  have hne : p ≠ [] := by
    intro h
    rw [h] at he
    simp at he
  have hcons := splitNl_cons p hne
  have hcl : count_lines p =
      1 + count_lines (p.drop ((p.takeWhile (fun c => !(c == '\n'))).length + 1)) := by
    simp only [count_lines]
    omega
  refine ⟨?_, hcl⟩
  rw [renderLines, renderLines, hcons, hcl]
  simp only [List.length_cons, List.cons_append]
  congr 2
  simp only [count_lines]
  congr 1
  omega

/-- A text with no newline renders as the single line `[t]` (including
the empty text, which displays one empty line). -/
theorem renderLines_single (p : List Char) (h0 : p.count '\n' = 0) :
    renderLines p = [p] := by
  have hnm : ('\n' : Char) ∉ p := List.count_eq_zero.1 h0
  have htw : p.takeWhile (fun c => !(c == '\n')) = p := by
    rw [List.takeWhile_eq_self_iff]
    intro x hx
    have hxe : x ≠ '\n' := fun hxe => hnm (hxe ▸ hx)
    simpa using hxe
  by_cases hpe : p = []
  · subst hpe; rfl
  · have hsp := splitNl_cons p hpe
    rw [htw] at hsp
    have hdn : p.drop (p.length + 1) = [] := List.drop_eq_nil_of_le (by omega)
    rw [hdn] at hsp
    have hz : splitNl ([] : List Char) = [] := rfl
    rw [hz] at hsp
    rw [renderLines, hsp]
    simp [count_lines, h0]

theorem L_pushw_split (cols : Nat) (L : List (List Char)) (s : List Char) :
    L_pushw cols L s = L ++ L_pushw cols [] s := by
  simp only [L_pushw]
  split <;> simp

/-- The tool-result body loop displays, in order, the first `k` padded
lines of the text, each rendered with its diff color and followed by
its wrap continuations. -/
theorem trGo_spec (cols : Nat) (home : Option (List Char)) (conn col : List Char)
    (df : Bool) : ∀ (k : Nat) (p : List Char) (L : List (List Char)),
    k ≤ count_lines p →
    trGo cols home conn col df k p L =
      L ++ (((renderLines p).take k).map (fun ln =>
        L_pushw cols [] (linkify 32768 home (conn ++ trLineColor df col ln ++
          ln.take (if ln.length > 16264 then 16263 else ln.length) ++ RS)))).flatten := by
  intro k
  induction k with
  | zero => intro p L _; simp [trGo]
  | succ k ih =>
    intro p L hk
    by_cases he : (p.takeWhile (fun c => !(c == '\n'))).length < p.length
    · obtain ⟨hrl, hcl⟩ := renderLines_cons p he
      simp only [trGo]
      rw [if_pos he]
      rw [ih (p.drop ((p.takeWhile (fun c => !(c == '\n'))).length + 1)) _
        (by omega)]
      rw [hrl]
      simp only [List.take_succ_cons, List.map_cons, List.flatten_cons]
      simp only [L_pushw_link]
      rw [L_pushw_split]
      simp [List.append_assoc]
    · have hlen : (p.takeWhile (fun c => !(c == '\n'))).length = p.length :=
        le_antisymm ((List.takeWhile_prefix _).length_le) (not_lt.1 he)
      have htw : p.takeWhile (fun c => !(c == '\n')) = p :=
        (List.takeWhile_prefix _).eq_of_length hlen
      have h0 : p.count '\n' = 0 := by
        refine List.count_eq_zero.2 (fun hmem => ?_)
        have hmem2 : ('\n' : Char) ∈ p.takeWhile (fun c => !(c == '\n')) := by
          rw [htw]; exact hmem
        have := List.mem_takeWhile_imp hmem2
        simp at this
      have hrl := renderLines_single p h0
      simp only [trGo]
      rw [if_neg he, hrl]
      simp only [List.take_succ_cons, List.take_nil, List.map_cons, List.map_nil,
        List.flatten_cons, List.flatten_nil, List.append_nil]
      rw [htw]
      simp only [L_pushw_link]
      rw [L_pushw_split]

/-- Claim C9 (counterexample): the block `++a\n+x\n-y` is diff-like, and
its first displayed line starts with `+`, yet it is rendered in the
neutral result color, not green — only *lone* `+`/`-` starts are
colored. -/
theorem tr_plus_plus_not_green :
    is_diff ("++a\n+x\n-y".toList) = true ∧
    ("++a".toList).head? = some '+' ∧
    render_items 100 none [Item.tr ("++a\n+x\n-y".toList) false] =
      [linkify 32768 none (("  ".toList) ++ C_RES ++ ("++a".toList) ++ RS),
       linkify 32768 none (("  ".toList) ++ C_DFG ++ ("+x".toList) ++ RS),
       linkify 32768 none (("  ".toList) ++ C_DFR ++ ("-y".toList) ++ RS)] ∧
    C_RES ≠ C_DFG := by
  refine ⟨by decide, by decide, by decide, by decide⟩

/-- Claim C9 (amended): a tool-result block is diff-like exactly when it
has at least one lone-`+` line and one lone-`-` line; the renderer shows
the first `min(count, 6)` lines, each colored by `trLineColor` — green
for a lone `+` start, red for a lone `-` start, blue for an `@@` start,
and the error/neutral base color otherwise or when the block is not
diff-like — followed by the `(N more lines)` footer beyond six. -/
theorem tr_diff_coloring (cols : Nat) (home : Option (List Char))
    (t : List Char) (ie : Bool) :
    (is_diff t = true ↔ diffLike t) ∧
    render_items cols home [Item.tr t ie] =
      (((renderLines t).take (min (count_lines t) MX_RES)).map
        (fun ln => trDisp cols home (is_diff t) ie ln)).flatten ++
      (if MX_RES < count_lines t then [trFooter t] else []) := by
  constructor
  · exact is_diff_iff t
  · simp only [render_items, List.foldl_cons, List.foldl_nil, riStep]
    simp only [trRender, Bool.false_eq_true, if_false]
    rw [trGo_spec cols home _ _ _ (min (count_lines t) MX_RES) t []
      (Nat.min_le_left _ _)]
    simp only [List.nil_append]
    split <;> simp [trFooter, trDisp]
